import Mathlib

/-
Verification of the equity-analysis pipeline (totallynotdavid/equity-analysis).

The development shallowly embeds the legacy per-instrument pipeline of
`excel_analysis/stock_processing.py` and `excel_analysis/data_check.py`,
and the per-sheet aggregation loop, as executable Lean functions:

* a pandas DataFrame is a list of named columns, each a list of cell values;
  a cell is a finite number (modelled exactly as a rational), a NaN, or a
  non-coercible text value;
* in-place mutation of the caller's DataFrame is modelled by explicit state
  passing: a stage returns the table as the caller observes it afterwards;
* Python exceptions are modelled with `Except`: an `.error` result is an
  uncaught exception escaping the modelled code;
* the float64 dtype check of `ensure_float64` is modelled as the absence of
  text cells in a column;
* external library calls (sklearn model training, the seeded shuffle of
  `train_test_split`, numpy randomness) are explicit parameters of the
  pipeline, so every theorem quantifies over their possible behaviours.
-/

set_option autoImplicit false

namespace EquityAnalysis

/-- A cell of a DataFrame column: a finite floating-point number (modelled
exactly as a rational), a missing value (NaN), or a text value that
`pd.to_numeric` cannot coerce. -/
inductive Value where
  | num (q : ℚ)
  | na
  | txt (s : String)
deriving DecidableEq, Repr

/-- Embedding of `pd.to_numeric(x, errors='coerce')` on one cell: numbers
pass through, everything else becomes NaN. -/
def toNumericCoerce : Value → Value
  | .num q => .num q
  | _ => .na

/-- A DataFrame is an ordered list of named columns. -/
abbrev DataFrame := List (String × List Value)

/-- Whether the DataFrame has a column of the given name
(`column in df.columns`). -/
def hasCol : DataFrame → String → Bool
  | [], _ => false
  | p :: rest, c => p.1 = c || hasCol rest c

/-- Column lookup, `df[c]`; `none` models the `KeyError` case. -/
def getCol : DataFrame → String → Option (List Value)
  | [], _ => none
  | p :: rest, c => if p.1 = c then some p.2 else getCol rest c

/-- In-place column assignment `df[c] = vs`, modelled functionally. -/
def setCol : DataFrame → String → List Value → DataFrame
  | [], _, _ => []
  | p :: rest, c, vs => (if p.1 = c then (c, vs) else p) :: setCol rest c vs

/-- Python exceptions that the embedded code can raise. -/
inductive PyErr where
  | nameError
  | keyError
  | valueError
  | indexError
deriving DecidableEq, Repr

/-- Modelled from the spec: the `COLUMN_NAMES` mapping of
`excel_analysis.constants` is not present under `src/`; the spec's
ColumnMapping names which columns play the role of price, target
("detail") and feature-list. -/
structure ColumnMapping where
  price : String
  detail : String
  features : List String
deriving DecidableEq, Repr

/-- Modelled from the spec: the `SheetResult` record of
`excel_analysis.constants` is not present under `src/`; the legacy code
constructs it as `SheetResult(sheet_name, final_value)`. -/
structure SheetResult where
  sheet_name : String
  final_value : ℚ
deriving DecidableEq, Repr

/-! ### Scorer (legacy `process_stock_data`, stock_processing.py lines 133-139) -/

/-- Embedding of `conteo_positivos_reales = np.sum(Y_test)`. -/
def conteo_positivos_reales (Y_test : List ℚ) : ℚ :=
  Y_test.sum

/-- Embedding of the `threshold_comparison` column:
`(df_predicciones['Predicted'] > optimal_threshold).astype(int)`. -/
def threshold_comparison (y_pred : List ℚ) (thr : ℚ) : List ℚ :=
  y_pred.map (fun p => if thr < p then 1 else 0)

/-- Embedding of `conteo_positivos_predichos =
df_predicciones['threshold_comparison'].sum()`. -/
def conteo_positivos_predichos (y_pred : List ℚ) (thr : ℚ) : ℚ :=
  (threshold_comparison y_pred thr).sum

/-- Embedding of `final_value = conteo_positivos_reales -
conteo_positivos_predichos`. -/
def final_value_calc (Y_test y_pred : List ℚ) (thr : ℚ) : ℚ :=
  conteo_positivos_reales Y_test - conteo_positivos_predichos y_pred thr

theorem sum_indicator_eq_count (l : List ℚ) (thr : ℚ) :
    (l.map (fun p => if thr < p then (1 : ℚ) else 0)).sum
      = ((l.filter (fun p => thr < p)).length : ℚ) := by
  induction l with
  | nil => simp
  | cons x xs ih =>
    by_cases h : thr < x
    · simp [List.filter_cons, h, ih]
      ring
    · simp [List.filter_cons, h, ih]

/-- C1: for every target vector, prediction vector and threshold, the scorer
computes `actual_positive_count` as the sum of the target values,
`predicted_positive_count` as the number of predictions strictly greater
than the optimal threshold, and `final_value` as their difference; in
particular on target `[1,0,1,1,0]`, predictions `[0.8,0.2,0.9,0.3,0.1]`
and threshold `0.5` it returns `final_value = 1`. -/
theorem C1_scorer_final_value :
    (∀ (Y_test y_pred : List ℚ) (thr : ℚ),
        conteo_positivos_reales Y_test = Y_test.sum ∧
        conteo_positivos_predichos y_pred thr
          = ((y_pred.filter (fun p => thr < p)).length : ℚ) ∧
        final_value_calc Y_test y_pred thr
          = Y_test.sum - ((y_pred.filter (fun p => thr < p)).length : ℚ)) ∧
    conteo_positivos_reales [1, 0, 1, 1, 0] = 3 ∧
    conteo_positivos_predichos [4/5, 1/5, 9/10, 3/10, 1/10] (1/2) = 2 ∧
    final_value_calc [1, 0, 1, 1, 0] [4/5, 1/5, 9/10, 3/10, 1/10] (1/2) = 1 := by
  refine ⟨fun Y_test y_pred thr =>
      ⟨rfl, sum_indicator_eq_count y_pred thr, ?_⟩, ?_, ?_, ?_⟩
  · simp only [final_value_calc, conteo_positivos_reales, conteo_positivos_predichos,
      threshold_comparison, sum_indicator_eq_count]
  · norm_num [conteo_positivos_reales]
  · norm_num [conteo_positivos_predichos, threshold_comparison]
  · norm_num [final_value_calc, conteo_positivos_reales,
      conteo_positivos_predichos, threshold_comparison]

/-! ### Normalizer (`data_check.normalize_column`, `normalize_data`) -/

/-- Numeric view of a cell. -/
def toRat : Value → Option ℚ
  | .num q => some q
  | _ => none

/-- Numeric entries of a column, in order. -/
def colNums (vs : List Value) : List ℚ :=
  vs.filterMap toRat

/-- Embedding of `df[c].min()`: the minimum over the numeric entries,
skipping NaN; `none` when no numeric entry exists (pandas yields NaN). -/
def colMin (vs : List Value) : Option ℚ :=
  match colNums vs with
  | [] => none
  | x :: xs => some (xs.foldl min x)

/-- Embedding of `df[c].max()`, dual to `colMin`. -/
def colMax (vs : List Value) : Option ℚ :=
  match colNums vs with
  | [] => none
  | x :: xs => some (xs.foldl max x)

/-- One cell of `(x - min) / (max - min)` in float semantics. Cells of the
column lie between `m` and `M`, so a zero denominator arises exactly as the
`0/0` form, which is NaN; NaN (and any non-numeric cell) propagates to NaN. -/
def normCell (m M : ℚ) : Value → Value
  | .num q => if M = m then .na else .num ((q - m) / (M - m))
  | _ => .na

/-- Embedding of the column-level assignment
`df[c] = (df[c] - df[c].min()) / (df[c].max() - df[c].min())`. When the
column has no numeric entry, both `min` and `max` are NaN and every cell
maps to NaN. -/
def normalizeColumnVals (vs : List Value) : List Value :=
  match colMin vs, colMax vs with
  | some m, some M => vs.map (normCell m M)
  | _, _ => vs.map (fun _ => Value.na)

/-- Embedding of `normalize_column(df, column_name)` (data_check.py lines
78-82): the in-place update is returned as the caller's table afterwards;
a missing column is a `KeyError`. -/
def normalize_column (df : DataFrame) (c : String) : Except PyErr DataFrame :=
  match getCol df c with
  | none => .error .keyError
  | some vs => .ok (setCol df c (normalizeColumnVals vs))

/-- Sequential normalization of a list of columns, as the `for` loop of
`normalize_data` does. -/
def normalizeCols (df : DataFrame) : List String → Except PyErr DataFrame
  | [] => .ok df
  | c :: cs =>
    match normalize_column df c with
    | .error e => .error e
    | .ok df2 => normalizeCols df2 cs

/-- Embedding of `normalize_data(df)` (stock_processing.py lines 71-74 and
data_check.py lines 84-90): normalizes the price column and every feature
column of the configuration, mutating the caller's table. -/
def normalize_data (cols : ColumnMapping) (df : DataFrame) : Except PyErr DataFrame :=
  normalizeCols df (cols.price :: cols.features)

theorem foldl_min_le_init (xs : List ℚ) (x : ℚ) : xs.foldl min x ≤ x := by
  induction xs generalizing x with
  | nil => exact le_refl x
  | cons y ys ih => exact le_trans (ih (min x y)) (min_le_left x y)

theorem foldl_min_le_mem (xs : List ℚ) (x a : ℚ) (h : a ∈ xs) :
    xs.foldl min x ≤ a := by
  induction xs generalizing x with
  | nil => cases h
  | cons y ys ih =>
    rcases List.mem_cons.1 h with rfl | h2
    · exact le_trans (foldl_min_le_init ys (min x a)) (min_le_right x a)
    · exact ih (min x y) h2

theorem le_foldl_max_init (xs : List ℚ) (x : ℚ) : x ≤ xs.foldl max x := by
  induction xs generalizing x with
  | nil => exact le_refl x
  | cons y ys ih => exact le_trans (le_max_left x y) (ih (max x y))

theorem le_foldl_max_mem (xs : List ℚ) (x a : ℚ) (h : a ∈ xs) :
    a ≤ xs.foldl max x := by
  induction xs generalizing x with
  | nil => cases h
  | cons y ys ih =>
    rcases List.mem_cons.1 h with rfl | h2
    · exact le_trans (le_max_right x a) (le_foldl_max_init ys (max x a))
    · exact ih (max x y) h2

theorem colMin_le {vs : List Value} {m q : ℚ} (hm : colMin vs = some m)
    (hq : q ∈ colNums vs) : m ≤ q := by
  unfold colMin at hm
  cases h : colNums vs with
  | nil => rw [h] at hq; cases hq
  | cons x xs =>
    rw [h] at hm hq
    simp only [Option.some.injEq] at hm
    subst hm
    rcases List.mem_cons.1 hq with rfl | hq2
    · exact foldl_min_le_init xs q
    · exact foldl_min_le_mem xs x q hq2

theorem le_colMax {vs : List Value} {M q : ℚ} (hM : colMax vs = some M)
    (hq : q ∈ colNums vs) : q ≤ M := by
  unfold colMax at hM
  cases h : colNums vs with
  | nil => rw [h] at hq; cases hq
  | cons x xs =>
    rw [h] at hM hq
    simp only [Option.some.injEq] at hM
    subst hM
    rcases List.mem_cons.1 hq with rfl | hq2
    · exact le_foldl_max_init xs q
    · exact le_foldl_max_mem xs x q hq2

/-- C2 counterexample: on the constant column `[5, 5]` the normalizer
computes `0/0`, so both cells become NaN; they are not the numeric value
`0` that the claim requires. -/
theorem C2_constant_column_cex :
    normalizeColumnVals [Value.num 5, Value.num 5] = [Value.na, Value.na] ∧
    Value.na ≠ Value.num 0 := by
  constructor
  · norm_num [normalizeColumnVals, colMin, colMax, colNums, toRat, normCell,
      List.filterMap_cons, List.foldl]
  · intro h
    cases h

/-- C2 amended: for a numeric column with minimum `m` and maximum `M`, when
`m < M` every normalized entry is a number in `[0, 1]`; when `m = M` (a
constant column) every normalized entry is NaN — a non-numeric value, not
the `0` the claim states. -/
theorem C2_normalizer_range (vs : List Value) (m M : ℚ)
    (hnum : ∀ v ∈ vs, ∃ q : ℚ, v = Value.num q)
    (hm : colMin vs = some m) (hM : colMax vs = some M) :
    (m < M → ∀ v ∈ normalizeColumnVals vs, ∃ q : ℚ,
        v = Value.num q ∧ 0 ≤ q ∧ q ≤ 1) ∧
    (m = M → ∀ v ∈ normalizeColumnVals vs, v = Value.na) := by
  have hnorm : normalizeColumnVals vs = vs.map (normCell m M) := by
    unfold normalizeColumnVals
    rw [hm, hM]
  constructor
  · intro hlt v hv
    rw [hnorm] at hv
    obtain ⟨w, hw, rfl⟩ := List.mem_map.1 hv
    obtain ⟨q, rfl⟩ := hnum w hw
    have hqmem : q ∈ colNums vs :=
      List.mem_filterMap.2 ⟨Value.num q, hw, rfl⟩
    have h1 : m ≤ q := colMin_le hm hqmem
    have h2 : q ≤ M := le_colMax hM hqmem
    refine ⟨(q - m) / (M - m), ?_, ?_, ?_⟩
    · simp [normCell, ne_of_gt hlt]
    · exact div_nonneg (sub_nonneg.2 h1) (le_of_lt (sub_pos.2 hlt))
    · rw [div_le_one (sub_pos.2 hlt)]
      linarith
  · intro heq v hv
    rw [hnorm] at hv
    obtain ⟨w, hw, rfl⟩ := List.mem_map.1 hv
    obtain ⟨q, rfl⟩ := hnum w hw
    simp [normCell, heq]

/-- C2 witness: the amended statement applied to the concrete constant
column `[5, 5]`: its first normalized entry is NaN. -/
theorem C2_normalizer_range_witness :
    (normalizeColumnVals [Value.num 5, Value.num 5]).headD (Value.num 0)
      = Value.na := by
  have h := (C2_normalizer_range [Value.num 5, Value.num 5] 5 5
    (by
      intro v hv
      rcases List.mem_cons.1 hv with rfl | hv2
      · exact ⟨5, rfl⟩
      rcases List.mem_cons.1 hv2 with rfl | hv3
      · exact ⟨5, rfl⟩
      · cases hv3)
    (by norm_num [colMin, colNums, toRat, List.filterMap_cons, List.foldl])
    (by norm_num [colMax, colNums, toRat, List.filterMap_cons, List.foldl])).2 rfl
  apply h
  norm_num [normalizeColumnVals, colMin, colMax, colNums, toRat, normCell,
    List.filterMap_cons, List.foldl, List.headD]

/-! ### Threshold Selector (`get_optimal_threshold`, stock_processing.py
lines 98-103 and data_check.py lines 127-132) -/

/-- Insertion of a value into an ascending list of distinct values. -/
def insertAsc (x : ℚ) : List ℚ → List ℚ
  | [] => [x]
  | y :: ys =>
    if x < y then x :: y :: ys
    else if x = y then y :: ys
    else y :: insertAsc x ys

/-- Modelled from the spec: `sklearn.metrics.roc_curve` is an external
collaborator; the spec describes the curve as ranging over "all distinct
prediction values used as candidate thresholds" in the ordering of the
curve construction. -/
def rocCandidates (y_pred : List ℚ) : List ℚ :=
  y_pred.foldr insertAsc []

/-- Modelled from the spec: true-positive rate at threshold `t` over the
paired `(label, score)` rows, labels "treated as binary-like": a row is
positive when its label equals 1 and predicted-positive when its score is
at least the threshold. A single-class degenerate curve is outside the
claim; rational division by zero returns 0 there. -/
def tprAt (pairs : List (ℚ × ℚ)) (t : ℚ) : ℚ :=
  ((pairs.filter (fun yp => yp.1 = 1 ∧ t ≤ yp.2)).length : ℚ) /
    ((pairs.filter (fun yp => yp.1 = 1)).length : ℚ)

/-- Modelled from the spec: false-positive rate at threshold `t`, dual to
`tprAt`. -/
def fprAt (pairs : List (ℚ × ℚ)) (t : ℚ) : ℚ :=
  ((pairs.filter (fun yp => ¬ yp.1 = 1 ∧ t ≤ yp.2)).length : ℚ) /
    ((pairs.filter (fun yp => ¬ yp.1 = 1)).length : ℚ)

/-- The `tf` column of the roc frame: `tpr - (1 - fpr)`, the Youden value. -/
def tfAt (pairs : List (ℚ × ℚ)) (t : ℚ) : ℚ :=
  tprAt pairs t - (1 - fprAt pairs t)

/-- Scan of the remaining `(key, threshold)` rows keeping the current best;
a later row replaces the best only when its key is strictly smaller, which
is how a stable `argsort` resolves exact key ties in favour of the
earliest row. -/
def pickAux (bk bt : ℚ) : List (ℚ × ℚ) → ℚ
  | [] => bt
  | (k, t) :: rest => if k < bk then pickAux k t rest else pickAux bk bt rest

/-- First-minimum selection over `(key, threshold)` rows, embedding
`roc.iloc[(roc.tf-0).abs().argsort()[:1]]['thresholds'].values[0]`; `none`
models the `IndexError` of `values[0]` on an empty curve. -/
def pickFirstMin : List (ℚ × ℚ) → Option ℚ
  | [] => none
  | (k, t) :: rest => some (pickAux k t rest)

/-- Embedding of `get_optimal_threshold(Y_test, y_pred)`: build the rows of
`|tf|` keys against candidate thresholds and select the first minimum. -/
def get_optimal_threshold (Y_test y_pred : List ℚ) : Option ℚ :=
  pickFirstMin ((rocCandidates y_pred).map
    (fun t => (|tfAt (Y_test.zip y_pred) t|, t)))

theorem pickAuxMap_spec (f : ℚ → ℚ × ℚ) (cs : List ℚ) (bk bt : ℚ) :
    (pickAux bk bt (cs.map f) = bt ∧ ∀ u ∈ cs, bk ≤ (f u).1) ∨
    (∃ c₁ u c₂, cs = c₁ ++ u :: c₂ ∧ pickAux bk bt (cs.map f) = (f u).2 ∧
      (f u).1 < bk ∧ (∀ w ∈ cs, (f u).1 ≤ (f w).1) ∧
      ∀ w ∈ c₁, (f u).1 < (f w).1) := by
  induction cs generalizing bk bt with
  | nil =>
    left
    exact ⟨rfl, fun u hu => absurd hu (List.not_mem_nil u)⟩
  | cons c rest ih =>
    have hstep : pickAux bk bt ((c :: rest).map f)
        = if (f c).1 < bk then pickAux (f c).1 (f c).2 (rest.map f)
          else pickAux bk bt (rest.map f) := rfl
    by_cases hk : (f c).1 < bk
    · rw [hstep, if_pos hk]
      rcases ih (f c).1 (f c).2 with ⟨heq, hall⟩ | ⟨c₁, u, c₂, hsplit, heq, hlt, hmin, hfirst⟩
      · right
        refine ⟨[], c, rest, rfl, heq, hk, ?_, ?_⟩
        · intro w hw
          rcases List.mem_cons.1 hw with rfl | hw2
          · exact le_refl _
          · exact hall w hw2
        · intro w hw
          cases hw
      · right
        refine ⟨c :: c₁, u, c₂, by rw [hsplit, List.cons_append], heq, lt_trans hlt hk, ?_, ?_⟩
        · intro w hw
          rcases List.mem_cons.1 hw with rfl | hw2
          · exact le_of_lt hlt
          · exact hmin w hw2
        · intro w hw
          rcases List.mem_cons.1 hw with rfl | hw2
          · exact hlt
          · exact hfirst w hw2
    · rw [hstep, if_neg hk]
      rcases ih bk bt with ⟨heq, hall⟩ | ⟨c₁, u, c₂, hsplit, heq, hlt, hmin, hfirst⟩
      · left
        refine ⟨heq, ?_⟩
        intro w hw
        rcases List.mem_cons.1 hw with rfl | hw2
        · exact le_of_not_lt hk
        · exact hall w hw2
      · right
        refine ⟨c :: c₁, u, c₂, by rw [hsplit, List.cons_append], heq, hlt, ?_, ?_⟩
        · intro w hw
          rcases List.mem_cons.1 hw with rfl | hw2
          · exact le_trans (le_of_lt hlt) (le_of_not_lt hk)
          · exact hmin w hw2
        · intro w hw
          rcases List.mem_cons.1 hw with rfl | hw2
          · exact lt_of_lt_of_le hlt (le_of_not_lt hk)
          · exact hfirst w hw2

theorem pickFirstMinMap_spec (f : ℚ → ℚ × ℚ) (cs : List ℚ) (h : cs ≠ []) :
    ∃ c₁ u c₂, cs = c₁ ++ u :: c₂ ∧
      pickFirstMin (cs.map f) = some (f u).2 ∧
      (∀ w ∈ cs, (f u).1 ≤ (f w).1) ∧ ∀ w ∈ c₁, (f u).1 < (f w).1 := by
  match cs, h with
  | c :: rest, _ =>
    have hstep : pickFirstMin ((c :: rest).map f)
        = some (pickAux (f c).1 (f c).2 (rest.map f)) := rfl
    rcases pickAuxMap_spec f rest (f c).1 (f c).2 with
      ⟨heq, hall⟩ | ⟨c₁, u, c₂, hsplit, heq, hlt, hmin, hfirst⟩
    · refine ⟨[], c, rest, rfl, by rw [hstep, heq], ?_, ?_⟩
      · intro w hw
        rcases List.mem_cons.1 hw with rfl | hw2
        · exact le_refl _
        · exact hall w hw2
      · intro w hw
        cases hw
    · refine ⟨c :: c₁, u, c₂, by rw [hsplit, List.cons_append], by rw [hstep, heq], ?_, ?_⟩
      · intro w hw
        rcases List.mem_cons.1 hw with rfl | hw2
        · exact le_of_lt hlt
        · exact hmin w hw2
      · intro w hw
        rcases List.mem_cons.1 hw with rfl | hw2
        · exact hlt
        · exact hfirst w hw2

/-- C3: the threshold selector returns the ROC candidate threshold whose
Youden value `tpr - (1 - fpr)` has the smallest absolute distance to zero,
with exact ties broken by the first occurrence in the curve ordering; and
repeated calls on the same pair return the identical scalar. -/
theorem C3_threshold_selector (Y_test y_pred : List ℚ)
    (h : rocCandidates y_pred ≠ []) :
    (∃ c₁ t c₂, rocCandidates y_pred = c₁ ++ t :: c₂ ∧
      get_optimal_threshold Y_test y_pred = some t ∧
      (∀ u ∈ rocCandidates y_pred,
          |tfAt (Y_test.zip y_pred) t - 0| ≤ |tfAt (Y_test.zip y_pred) u - 0|) ∧
      ∀ u ∈ c₁,
          |tfAt (Y_test.zip y_pred) t - 0| < |tfAt (Y_test.zip y_pred) u - 0|) ∧
    get_optimal_threshold Y_test y_pred = get_optimal_threshold Y_test y_pred := by
  constructor
  · obtain ⟨c₁, u, c₂, hsplit, heq, hmin, hfirst⟩ :=
      pickFirstMinMap_spec (fun t => (|tfAt (Y_test.zip y_pred) t|, t))
        (rocCandidates y_pred) h
    refine ⟨c₁, u, c₂, hsplit, heq, ?_, ?_⟩
    · intro w hw
      simpa [sub_zero] using hmin w hw
    · intro w hw
      simpa [sub_zero] using hfirst w hw
  · rfl

/-- C3 witness: the selector applied to the concrete pair
`Y_test = [1]`, `y_pred = [0]`, whose candidate list is the single
threshold `0`. -/
theorem C3_threshold_selector_witness :
    (∃ c₁ t c₂, rocCandidates [(0 : ℚ)] = c₁ ++ t :: c₂ ∧
      get_optimal_threshold [(1 : ℚ)] [(0 : ℚ)] = some t ∧
      (∀ u ∈ rocCandidates [(0 : ℚ)],
          |tfAt (List.zip [(1 : ℚ)] [(0 : ℚ)]) t - 0|
            ≤ |tfAt (List.zip [(1 : ℚ)] [(0 : ℚ)]) u - 0|) ∧
      ∀ u ∈ c₁,
          |tfAt (List.zip [(1 : ℚ)] [(0 : ℚ)]) t - 0|
            < |tfAt (List.zip [(1 : ℚ)] [(0 : ℚ)]) u - 0|) ∧
    get_optimal_threshold [(1 : ℚ)] [(0 : ℚ)]
      = get_optimal_threshold [(1 : ℚ)] [(0 : ℚ)] :=
  C3_threshold_selector [(1 : ℚ)] [(0 : ℚ)]
    (by simp [rocCandidates, insertAsc])

/-! ### Data cleaning (`handle_non_numeric_values`, stock_processing.py
lines 54-68) -/

/-- Text-cell test, the model of a non-float64 storage entry. -/
def isTxt : Value → Bool
  | .txt _ => true
  | _ => false

/-- One iteration of the cleaning loop for one checked column. If any cell
of the column coerces to NaN, the logging loop evaluates the f-string
`f"Fila: {index}, ..."` whose name `index` is undefined in that scope and
raises `NameError`; a missing column raises `KeyError` at `df[column]`;
otherwise the column is overwritten with its coerced values. -/
def coerceColumn (df : DataFrame) (c : String) : Except PyErr DataFrame :=
  match getCol df c with
  | none => .error .keyError
  | some vs =>
    if vs.any (fun v => toNumericCoerce v = Value.na) then .error .nameError
    else .ok (setCol df c (vs.map toNumericCoerce))

/-- The `for column in columns_to_check` loop of
`handle_non_numeric_values`. -/
def coerceColumns (df : DataFrame) : List String → Except PyErr DataFrame
  | [] => .ok df
  | c :: cs =>
    match coerceColumn df c with
    | .error e => .error e
    | .ok df2 => coerceColumns df2 cs

/-- Forward fill of one column, as `df.fillna(method='ffill')` acts on it:
each NaN takes the closest preceding non-NaN value; a leading NaN stays. -/
def ffillColAux (last : Option Value) : List Value → List Value
  | [] => []
  | v :: rest =>
    if v = Value.na then (last.getD Value.na) :: ffillColAux last rest
    else v :: ffillColAux (some v) rest

/-- Forward fill of one column starting with no previous value. -/
def ffillCol (vs : List Value) : List Value :=
  ffillColAux none vs

/-- Forward fill of the whole frame. -/
def ffillFrame (df : DataFrame) : DataFrame :=
  df.map (fun p => (p.1, ffillCol p.2))

/-- An `astype('float64')` cast of a column in place: raises `ValueError`
on a text cell, keeps numbers and NaN. -/
def astypeFloatCol (vs : List Value) : Except PyErr (List Value) :=
  if vs.any isTxt then .error .valueError else .ok vs

/-- Embedding of `handle_non_numeric_values(df, columns_to_check)`
(stock_processing.py lines 54-68): coerce every checked column, forward
fill the frame, then `df['PX_VOLUME'].astype('float64')`, which raises
`KeyError` when the frame has no `PX_VOLUME` column. -/
def handle_non_numeric_values (df : DataFrame) (columns_to_check : List String) :
    Except PyErr DataFrame :=
  match coerceColumns df columns_to_check with
  | .error e => .error e
  | .ok df2 =>
    let df3 := ffillFrame df2
    match getCol df3 "PX_VOLUME" with
    | none => .error .keyError
    | some vs =>
      match astypeFloatCol vs with
      | .error e => .error e
      | .ok vs2 => .ok (setCol df3 "PX_VOLUME" vs2)

/-! ### Row filtering and coercion of the DETALLE column -/

/-- Row selection by a Boolean mask, as `df[mask]` applies it columnwise. -/
def applyMask (mask : List Bool) (vs : List Value) : List Value :=
  (mask.zip vs).filterMap (fun mv => if mv.1 then some mv.2 else none)

/-- Embedding of
`df = df[pd.to_numeric(df['DETALLE'], errors='coerce').notnull()]`
(stock_processing.py line 120, with the hard-coded column name): keeps the
rows whose DETALLE cell coerces to a number. -/
def filterDetalle (df : DataFrame) : Except PyErr DataFrame :=
  match getCol df "DETALLE" with
  | none => .error .keyError
  | some vs =>
    let mask := vs.map (fun v => !(toNumericCoerce v == Value.na))
    .ok (df.map (fun p => (p.1, applyMask mask p.2)))

/-- Embedding of `df.loc[:, 'DETALLE'] = df['DETALLE'].astype('float')`
(stock_processing.py line 121). -/
def astypeDetalle (df : DataFrame) : Except PyErr DataFrame :=
  match getCol df "DETALLE" with
  | none => .error .keyError
  | some vs =>
    match astypeFloatCol vs with
    | .error e => .error e
    | .ok vs2 => .ok (setCol df "DETALLE" vs2)

/-- Embedding of `ensure_float64(df)`: raises `ValueError` unless every
column is float64, modelled as no column holding a text cell. -/
def ensure_float64 (df : DataFrame) : Except PyErr Unit :=
  if df.all (fun p => p.2.all (fun v => !(isTxt v))) then .ok ()
  else .error .valueError

/-- An `astype('float')` cast of extracted values; a text cell raises
`ValueError`. The call sites run after the rows whose DETALLE fails
numeric coercion are dropped, so NaN cannot occur there; NaN input would
make the later `roc_curve` call raise, and is modelled as the same error. -/
def valuesAstypeFloat : List Value → Except PyErr (List ℚ)
  | [] => .ok []
  | .num q :: rest =>
    match valuesAstypeFloat rest with
    | .error e => .error e
    | .ok qs => .ok (q :: qs)
  | _ :: _ => .error .valueError

/-- Lookup of several columns of the frame, `df[feature_cols]`. -/
def getCols (df : DataFrame) : List String → Except PyErr (List (List Value))
  | [] => .ok []
  | c :: cs =>
    match getCol df c with
    | none => .error .keyError
    | some vs =>
      match getCols df cs with
      | .error e => .error e
      | .ok rest => .ok (vs :: rest)

/-! ### Splitter -/

/-- Number of rows of the frame, the length of its first column (pandas
keeps all columns equally long). -/
def nRows (df : DataFrame) : ℕ :=
  match df with
  | [] => 0
  | p :: _ => p.2.length

/-- Test-set size of `train_test_split(..., test_size=0.2)`:
the ceiling of `0.2 * n`. -/
def nTestRows (n : ℕ) : ℕ :=
  (n + 4) / 5

/-- Modelled from the spec: `train_test_split(X, Y, test_size=0.2,
random_state=42)` shuffles the row positions with a permutation drawn
from the seeded generator and takes the first `nTestRows n` shuffled
positions as the test set. The permutation lives inside sklearn, so the
embedding receives it as an explicit argument. -/
def splitTestRows (perm : List ℕ) (n : ℕ) : List ℕ :=
  perm.take (nTestRows n)

/-- Training rows of the randomized split: the shuffled positions after
the test cut. -/
def splitTrainRows (perm : List ℕ) (n : ℕ) : List ℕ :=
  perm.drop (nTestRows n)

/-- Rows of one column at the given positions. -/
def selectRows (vs : List Value) (idx : List ℕ) : List Value :=
  idx.filterMap (fun i => vs.get? i)

/-- Rows of a numeric vector at the given positions. -/
def selectRowsQ (qs : List ℚ) (idx : List ℕ) : List ℚ :=
  idx.filterMap (fun i => qs.get? i)

/-- Embedding of `dividir_datos_entrenamiento_prueba(df)`
(stock_processing.py lines 76-88): `X = df[feature_cols].values` kept
column-major, `Y = df['DETALLE'].values.astype('float')`, then the seeded
80/20 shuffle split; `perm` is the sklearn-internal shuffled order of the
row positions. -/
def dividir_datos_entrenamiento_prueba (perm : ℕ → List ℕ)
    (features : List String) (df : DataFrame) :
    Except PyErr (List (List Value) × List ℚ × List (List Value) × List ℚ) :=
  match getCols df features with
  | .error e => .error e
  | .ok Xcols =>
    match getCol df "DETALLE" with
    | none => .error .keyError
    | some dvs =>
      match valuesAstypeFloat dvs with
      | .error e => .error e
      | .ok Y =>
        let n := nRows df
        let trainIdx := splitTrainRows (perm n) n
        let testIdx := splitTestRows (perm n) n
        .ok (Xcols.map (fun col => selectRows col trainIdx),
          selectRowsQ Y trainIdx,
          Xcols.map (fun col => selectRows col testIdx),
          selectRowsQ Y testIdx)

/-- Row positions selected by `iloc[a:b]` from a list of rows. -/
def ilocRows {α : Type} (a b : ℕ) (l : List α) : List α :=
  (l.take b).drop a

/-- Row positions of the positional training slice `iloc[0:2886]` of a
table with `n` rows. -/
def trainRowIdx (n : ℕ) : List ℕ :=
  ilocRows 0 2886 (List.range n)

/-- Row positions of the positional evaluation slice `iloc[2887:3607]` of
a table with `n` rows. -/
def testRowIdx (n : ℕ) : List ℕ :=
  ilocRows 2887 3607 (List.range n)

/-- The `iloc[a:b, 0:9]` slice at frame level: first nine columns, rows
`a` to `b-1` of each. -/
def ilocFrame (a b : ℕ) (df : DataFrame) : DataFrame :=
  (df.map (fun p => (p.1, ilocRows a b p.2))).take 9

/-- Feature columns of `data_check.COLUMN_NAMES` (data_check.py line 31). -/
def dcFeatures : List String :=
  ["Movilveintiuno", "Movilcincocinco", "Movilunocuatrocuatro",
   "Momentdiez", "Momentsetenta", "Momenttrescerocero"]

/-- Embedding of `get_training_and_test_data(df)` (data_check.py lines
92-109): the positional split over the fixed slices `iloc[0:2886, 0:9]`
and `iloc[2887:3607, 0:9]`, target column `'Detalle'`, and the final
`ensure_float64(df)` check. -/
def get_training_and_test_data (df : DataFrame) :
    Except PyErr (List (List Value) × List ℚ × List (List Value) × List ℚ) :=
  let division1 := ilocFrame 0 2886 df
  let division2 := ilocFrame 2887 3607 df
  match getCols division1 dcFeatures with
  | .error e => .error e
  | .ok X_train =>
    match getCol division1 "Detalle" with
    | none => .error .keyError
    | some d1 =>
      match valuesAstypeFloat d1 with
      | .error e => .error e
      | .ok Y_train =>
        match getCols division2 dcFeatures with
        | .error e => .error e
        | .ok X_test =>
          match getCol division2 "Detalle" with
          | none => .error .keyError
          | some d2 =>
            match valuesAstypeFloat d2 with
            | .error e => .error e
            | .ok Y_test =>
              match ensure_float64 df with
              | .error e => .error e
              | .ok _ => .ok (X_train, Y_train, X_test, Y_test)

/-! ### Per-sheet pipeline (`process_stock_data`, stock_processing.py
lines 105-141) and the per-sheet loop of `main` (lines 164-169) -/

/-- Embedding of `process_stock_data(df, sheet_name, results_list)`.
External sklearn training is the explicit argument `mlp` (taking the
training matrix, training target and test matrix to the predictions) and
the seeded shuffle of the splitter is `perm`. The returned frame is the
caller's table after the in-place stages: the row filtering at line 120
rebinds the local name only, so the caller keeps the cleaned and
normalized (unfiltered) table. -/
def process_stock_data
    (mlp : List (List Value) → List ℚ → List (List Value) → List ℚ)
    (perm : ℕ → List ℕ) (cols : ColumnMapping)
    (df : DataFrame) (sheet_name : String) (results_list : List SheetResult) :
    Except PyErr (DataFrame × List SheetResult) :=
  let expected_columns := cols.price :: cols.detail :: cols.features
  if expected_columns.all (fun c => hasCol df c) then
    match handle_non_numeric_values df expected_columns with
    | .error e => .error e
    | .ok df1 =>
      match normalize_data cols df1 with
      | .error e => .error e
      | .ok df2 =>
        match filterDetalle df2 with
        | .error e => .error e
        | .ok df3 =>
          match astypeDetalle df3 with
          | .error e => .error e
          | .ok df4 =>
            match ensure_float64 df4 with
            | .error e => .error e
            | .ok _ =>
              match dividir_datos_entrenamiento_prueba perm cols.features df4 with
              | .error e => .error e
              | .ok (X_train, Y_train, X_test, Y_test) =>
                let y_pred := mlp X_train Y_train X_test
                match get_optimal_threshold Y_test y_pred with
                | none => .error .indexError
                | some thr =>
                  .ok (df2, results_list ++
                    [⟨sheet_name, final_value_calc Y_test y_pred thr⟩])
  else .ok (df, results_list)

/-- Embedding of the per-sheet loop of `main()` (stock_processing.py lines
164-169): every sheet is processed in turn with no exception handler
around the call, so an error aborts the remaining sheets. -/
def runSheets (mlp : List (List Value) → List ℚ → List (List Value) → List ℚ)
    (perm : ℕ → List ℕ) (cols : ColumnMapping) :
    List (String × DataFrame) → List SheetResult → Except PyErr (List SheetResult)
  | [], results => .ok results
  | (name, df) :: rest, results =>
    match process_stock_data mlp perm cols df name results with
    | .error e => .error e
    | .ok (_, results2) => runSheets mlp perm cols rest results2

/-! ### Frame access lemmas -/

theorem hasCol_iff_getCol (df : DataFrame) (c : String) :
    hasCol df c = true ↔ ∃ vs, getCol df c = some vs := by
  induction df with
  | nil => simp [hasCol, getCol]
  | cons p rest ih =>
    by_cases h : p.1 = c
    · simp [hasCol, getCol, h]
    · simp [hasCol, getCol, h, ih]

theorem hasCol_setCol (df : DataFrame) (c : String) (vs : List Value) (c' : String) :
    hasCol (setCol df c vs) c' = hasCol df c' := by
  induction df with
  | nil => rfl
  | cons p rest ih =>
    by_cases h : p.1 = c
    · rw [← h]
      simp [setCol, hasCol, h, ih]
    · simp [setCol, hasCol, h, ih]

theorem getCol_setCol_self (df : DataFrame) (c : String) (vs : List Value)
    (h : hasCol df c = true) : getCol (setCol df c vs) c = some vs := by
  induction df with
  | nil => cases h
  | cons p rest ih =>
    by_cases hn : p.1 = c
    · simp [setCol, getCol, hn]
    · simp only [hasCol, hn, decide_eq_false_iff_not, not_false_eq_true,
        Bool.false_or] at h
      simp [setCol, getCol, hn, ih h]

theorem getCol_setCol_other (df : DataFrame) (c : String) (vs : List Value)
    (c' : String) (h : c' ≠ c) :
    getCol (setCol df c vs) c' = getCol df c' := by
  induction df with
  | nil => rfl
  | cons p rest ih =>
    by_cases hn : p.1 = c
    · have h2 : ¬ (c = c') := fun hh => h hh.symm
      have h3 : ¬ (p.1 = c') := by
        rw [hn]
        exact h2
      simp [setCol, getCol, hn, h2, h3, ih]
    · by_cases hc' : p.1 = c'
      · simp [setCol, getCol, hn, hc', h]
      · simp [setCol, getCol, hn, hc', h, ih]

/-- C5: for every required column individually, a table lacking that column
is rejected by the validation gate of `process_stock_data`: the function
returns before any numeric transform, raises nothing, leaves the caller's
table untouched and appends no SheetResult. -/
theorem C5_missing_column_rejected
    (mlp : List (List Value) → List ℚ → List (List Value) → List ℚ)
    (perm : ℕ → List ℕ) (cols : ColumnMapping) (df : DataFrame)
    (sheet : String) (results : List SheetResult) (c : String)
    (hc : c ∈ cols.price :: cols.detail :: cols.features)
    (habs : hasCol df c = false) :
    process_stock_data mlp perm cols df sheet results = .ok (df, results) := by
  have hall : ((cols.price :: cols.detail :: cols.features).all
      (fun x => hasCol df x)) = false := by
    cases hallc : (cols.price :: cols.detail :: cols.features).all
        (fun x => hasCol df x) with
    | false => rfl
    | true =>
      have htr := List.all_eq_true.1 hallc c hc
      rw [habs] at htr
      cases htr
  simp [process_stock_data, hall]

/-- C5 witness: a table having only the price column is rejected untouched
for the missing detail column. -/
theorem C5_missing_column_rejected_witness :
    process_stock_data (fun _ _ _ => []) (fun n => List.range n)
      ⟨"Precio", "DETALLE", ["F1"]⟩ [("Precio", [])] "Hoja" []
      = .ok ([("Precio", [])], []) :=
  C5_missing_column_rejected (fun _ _ _ => []) (fun n => List.range n)
    ⟨"Precio", "DETALLE", ["F1"]⟩ [("Precio", [])] "Hoja" [] "DETALLE"
    (by simp) (by decide)

theorem normalizeCols_spec (cs : List String) (df : DataFrame)
    (hpres : ∀ c ∈ cs, hasCol df c = true) (hnd : cs.Nodup) :
    ∃ df2, normalizeCols df cs = .ok df2 ∧
      (∀ c ∈ cs, getCol df2 c = (getCol df c).map normalizeColumnVals) ∧
      (∀ c, c ∉ cs → getCol df2 c = getCol df c) ∧
      (∀ c, hasCol df2 c = hasCol df c) := by
  induction cs generalizing df with
  | nil =>
    exact ⟨df, rfl, by simp, fun c _ => rfl, fun c => rfl⟩
  | cons c cs ih =>
    have hc : hasCol df c = true := hpres c (List.mem_cons_self c cs)
    obtain ⟨vs, hvs⟩ := (hasCol_iff_getCol df c).1 hc
    have hstep : normalize_column df c
        = .ok (setCol df c (normalizeColumnVals vs)) := by
      simp [normalize_column, hvs]
    have hnotin : c ∉ cs := (List.nodup_cons.1 hnd).1
    have hnd2 : cs.Nodup := (List.nodup_cons.1 hnd).2
    have hpres2 : ∀ c' ∈ cs, hasCol (setCol df c (normalizeColumnVals vs)) c' = true := by
      intro c' hc'
      rw [hasCol_setCol]
      exact hpres c' (List.mem_cons_of_mem c hc')
    obtain ⟨df2, hok, hin, hout, hhas⟩ :=
      ih (setCol df c (normalizeColumnVals vs)) hpres2 hnd2
    refine ⟨df2, ?_, ?_, ?_, ?_⟩
    · simp [normalizeCols, hstep, hok]
    · intro c' hc'
      rcases List.mem_cons.1 hc' with rfl | hmem
      · rw [hout c' hnotin, getCol_setCol_self df c' _ hc, hvs]
        rfl
      · have hne : c' ≠ c := fun h => hnotin (h ▸ hmem)
        rw [hin c' hmem, getCol_setCol_other df c _ c' hne]
    · intro c' hc'
      have hne : c' ≠ c := fun h => hc' (h ▸ List.mem_cons_self c cs)
      rw [hout c' (fun hm => hc' (List.mem_cons_of_mem c hm)),
        getCol_setCol_other df c _ c' hne]
    · intro c'
      rw [hhas c', hasCol_setCol]

/-- C7 counterexample: `normalize_data` is not read-only on the caller's
table: on a table whose price column is `[0, 2]` the stage leaves the
caller holding `[0, 1]`, a table different from the input. -/
theorem C7_read_only_cex :
    normalize_data ⟨"P", "D", []⟩ [("P", [Value.num 0, Value.num 2])]
      = .ok [("P", [Value.num 0, Value.num 1])] ∧
    ([("P", [Value.num 0, Value.num 1])] : DataFrame)
      ≠ [("P", [Value.num 0, Value.num 2])] := by
  constructor
  · norm_num [normalize_data, normalizeCols, normalize_column, getCol, setCol,
      normalizeColumnVals, colMin, colMax, colNums, toRat, normCell,
      List.filterMap_cons, List.foldl]
  · intro h
    simp only [List.cons.injEq, Prod.mk.injEq, Value.num.injEq,
      and_true, true_and] at h
    norm_num at h

/-- C7 amended: the per-instrument pipeline mutates the caller's table:
`normalize_data` overwrites the price column and every feature column
with its min-max rescaled values (other columns stay untouched), and the
caller holds this mutated table after the stage. -/
theorem C7_normalize_mutates (cols : ColumnMapping) (df : DataFrame)
    (hpres : ∀ c ∈ cols.price :: cols.features, hasCol df c = true)
    (hnd : (cols.price :: cols.features).Nodup) :
    ∃ df2, normalize_data cols df = .ok df2 ∧
      (∀ c ∈ cols.price :: cols.features,
          getCol df2 c = (getCol df c).map normalizeColumnVals) ∧
      ∀ c, c ∉ cols.price :: cols.features → getCol df2 c = getCol df c := by
  obtain ⟨df2, hok, hin, hout, _⟩ :=
    normalizeCols_spec (cols.price :: cols.features) df hpres hnd
  exact ⟨df2, hok, hin, hout⟩

/-- C7 witness: the amended statement applied to a two-column table whose
price column gets rescaled while the detail column stays untouched. -/
theorem C7_normalize_mutates_witness :
    ∃ df2, normalize_data ⟨"P", "D", []⟩
        [("P", [Value.num 0, Value.num 2]), ("D", [Value.num 7])] = .ok df2 ∧
      (∀ c ∈ ["P"],
          getCol df2 c
            = (getCol [("P", [Value.num 0, Value.num 2]),
                ("D", [Value.num 7])] c).map normalizeColumnVals) ∧
      ∀ c, c ∉ ["P"] →
          getCol df2 c
            = getCol [("P", [Value.num 0, Value.num 2]),
                ("D", [Value.num 7])] c :=
  C7_normalize_mutates ⟨"P", "D", []⟩
    [("P", [Value.num 0, Value.num 2]), ("D", [Value.num 7])]
    (by decide) (by decide)

/-! ### Cleaning-loop lemmas for the exception behaviour -/

/-- Whether a column holds a cell that fails numeric coercion (the
condition under which the logging loop of `handle_non_numeric_values`
runs and hits the undefined name `index`). -/
def dirtyCol (vs : List Value) : Bool :=
  vs.any (fun v => toNumericCoerce v = Value.na)

theorem map_coerce_of_clean (vs : List Value)
    (h : dirtyCol vs = false) : vs.map toNumericCoerce = vs := by
  induction vs with
  | nil => rfl
  | cons v rest ih =>
    rw [dirtyCol, List.any_cons, Bool.or_eq_false_iff] at h
    have h2 : rest.map toNumericCoerce = rest := by
      apply ih
      rw [dirtyCol]
      exact h.2
    cases v with
    | num q => simp [toNumericCoerce, h2]
    | na => simp [toNumericCoerce] at h
    | txt s => simp [toNumericCoerce] at h

theorem coerceColumn_clean (df : DataFrame) (c : String) (vs : List Value)
    (hvs : getCol df c = some vs) (h : dirtyCol vs = false) :
    coerceColumn df c = .ok (setCol df c vs) := by
  rw [coerceColumn, hvs]
  rw [dirtyCol] at h
  simp [h, map_coerce_of_clean vs (by rw [dirtyCol]; exact h)]

theorem coerceColumns_dirty (cs : List String) (df : DataFrame)
    (hpres : ∀ c ∈ cs, hasCol df c = true)
    (hdirty : ∃ c ∈ cs, ∃ vs, getCol df c = some vs ∧ dirtyCol vs = true) :
    coerceColumns df cs = .error .nameError := by
  induction cs generalizing df with
  | nil =>
    obtain ⟨c, hc, _⟩ := hdirty
    cases hc
  | cons c cs ih =>
    obtain ⟨vs, hvs⟩ :=
      (hasCol_iff_getCol df c).1 (hpres c (List.mem_cons_self c cs))
    by_cases hd : dirtyCol vs = true
    · have hstep : coerceColumn df c = .error .nameError := by
        rw [coerceColumn, hvs]
        rw [dirtyCol] at hd
        simp [hd]
      simp [coerceColumns, hstep]
    · have hdF : dirtyCol vs = false := by simpa using hd
      have hstep := coerceColumn_clean df c vs hvs hdF
      obtain ⟨c', hc', vs', hvs', hd'⟩ := hdirty
      have hc'tail : c' ∈ cs := by
        rcases List.mem_cons.1 hc' with rfl | h2
        · rw [hvs] at hvs'
          injection hvs' with h3
          subst h3
          exact absurd hd' hd
        · exact h2
      have hdirty2 : ∃ c2 ∈ cs, ∃ vs2,
          getCol (setCol df c vs) c2 = some vs2 ∧ dirtyCol vs2 = true := by
        refine ⟨c', hc'tail, vs', ?_, hd'⟩
        by_cases hcc : c' = c
        · subst hcc
          rw [hvs] at hvs'
          injection hvs' with h3
          subst h3
          exact absurd hd' hd
        · rw [getCol_setCol_other df c vs c' hcc]
          exact hvs'
      have hpres2 : ∀ c2 ∈ cs, hasCol (setCol df c vs) c2 = true := by
        intro c2 hc2
        rw [hasCol_setCol]
        exact hpres c2 (List.mem_cons_of_mem c hc2)
      have hrec := ih (setCol df c vs) hpres2 hdirty2
      simp [coerceColumns, hstep, hrec]

theorem coerceColumns_clean (cs : List String) (df : DataFrame)
    (hclean : ∀ c ∈ cs, ∃ vs, getCol df c = some vs ∧ dirtyCol vs = false) :
    ∃ df2, coerceColumns df cs = .ok df2 ∧
      ∀ c', hasCol df2 c' = hasCol df c' := by
  induction cs generalizing df with
  | nil => exact ⟨df, rfl, fun _ => rfl⟩
  | cons c cs ih =>
    obtain ⟨vs, hvs, hcl⟩ := hclean c (List.mem_cons_self c cs)
    have hstep := coerceColumn_clean df c vs hvs hcl
    have hclean2 : ∀ c' ∈ cs, ∃ vs', getCol (setCol df c vs) c' = some vs' ∧
        dirtyCol vs' = false := by
      intro c' hc'
      obtain ⟨vs', hvs', hcl'⟩ := hclean c' (List.mem_cons_of_mem c hc')
      by_cases hcc : c' = c
      · subst hcc
        exact ⟨vs, getCol_setCol_self df c' vs
          ((hasCol_iff_getCol df c').2 ⟨vs, hvs⟩), hcl⟩
      · rw [getCol_setCol_other df c vs c' hcc]
        exact ⟨vs', hvs', hcl'⟩
    obtain ⟨df2, hok, hhas⟩ := ih (setCol df c vs) hclean2
    refine ⟨df2, by simp [coerceColumns, hstep, hok], fun c' => ?_⟩
    rw [hhas c', hasCol_setCol]

theorem hasCol_ffillFrame (df : DataFrame) (c : String) :
    hasCol (ffillFrame df) c = hasCol df c := by
  induction df with
  | nil => rfl
  | cons p rest ih =>
    simp only [ffillFrame, List.map_cons] at *
    rw [hasCol, hasCol, ih]

theorem getCol_eq_none_of_not_hasCol (df : DataFrame) (c : String)
    (h : hasCol df c = false) : getCol df c = none := by
  cases hg : getCol df c with
  | none => rfl
  | some vs =>
    have := (hasCol_iff_getCol df c).2 ⟨vs, hg⟩
    rw [h] at this
    cases this

/-- C9: a table that passes column validation but holds a cell failing
numeric coercion in a checked column makes the cleaning step raise the
`NameError` of the undefined name `index` in its logging loop; a table
that is clean but lacks a `PX_VOLUME` column raises `KeyError` at
`df['PX_VOLUME']`. Either exception escapes `process_stock_data`, so the
function is not total on validated tables. -/
theorem C9_cleaning_not_total
    (mlp : List (List Value) → List ℚ → List (List Value) → List ℚ)
    (perm : ℕ → List ℕ) (cols : ColumnMapping) (df : DataFrame)
    (sheet : String) (results : List SheetResult)
    (hval : (cols.price :: cols.detail :: cols.features).all
        (fun x => hasCol df x) = true) :
    ((∃ c ∈ cols.price :: cols.detail :: cols.features,
        ∃ vs, getCol df c = some vs ∧ dirtyCol vs = true) →
      process_stock_data mlp perm cols df sheet results = .error .nameError) ∧
    ((∀ c ∈ cols.price :: cols.detail :: cols.features,
        ∃ vs, getCol df c = some vs ∧ dirtyCol vs = false) →
      hasCol df "PX_VOLUME" = false →
      process_stock_data mlp perm cols df sheet results = .error .keyError) := by
  have hpres : ∀ c ∈ cols.price :: cols.detail :: cols.features,
      hasCol df c = true := fun c hc => List.all_eq_true.1 hval c hc
  constructor
  · intro hdirty
    have h1 := coerceColumns_dirty
      (cols.price :: cols.detail :: cols.features) df hpres hdirty
    have h2 : handle_non_numeric_values df
        (cols.price :: cols.detail :: cols.features) = .error .nameError := by
      simp [handle_non_numeric_values, h1]
    simp [process_stock_data, hval, h2]
  · intro hclean hnoPX
    obtain ⟨df2, hok, hhas⟩ := coerceColumns_clean
      (cols.price :: cols.detail :: cols.features) df hclean
    have hgc : getCol (ffillFrame df2) "PX_VOLUME" = none := by
      apply getCol_eq_none_of_not_hasCol
      rw [hasCol_ffillFrame, hhas, hnoPX]
    have h2 : handle_non_numeric_values df
        (cols.price :: cols.detail :: cols.features) = .error .keyError := by
      simp [handle_non_numeric_values, hok, hgc]
    simp [process_stock_data, hval, h2]

/-- C9 witness: a validated table with a text cell in its price column
raises `NameError`; a clean validated table without `PX_VOLUME` raises
`KeyError`. -/
theorem C9_cleaning_not_total_witness :
    process_stock_data (fun _ _ _ => []) (fun n => List.range n) ⟨"P", "D", []⟩
      [("P", [Value.num 1, Value.txt "x"]), ("D", [Value.num 0])] "A" []
      = .error .nameError ∧
    process_stock_data (fun _ _ _ => []) (fun n => List.range n) ⟨"P", "D", []⟩
      [("P", [Value.num 1]), ("D", [Value.num 0])] "B" []
      = .error .keyError := by
  constructor
  · exact (C9_cleaning_not_total (fun _ _ _ => []) (fun n => List.range n)
      ⟨"P", "D", []⟩ [("P", [Value.num 1, Value.txt "x"]), ("D", [Value.num 0])]
      "A" [] (by decide)).1
      ⟨"P", by simp, [Value.num 1, Value.txt "x"], rfl, rfl⟩
  · refine (C9_cleaning_not_total (fun _ _ _ => []) (fun n => List.range n)
      ⟨"P", "D", []⟩ [("P", [Value.num 1]), ("D", [Value.num 0])]
      "B" [] (by decide)).2 ?_ (by decide)
    intro c hc
    rcases List.mem_cons.1 hc with rfl | hc2
    · exact ⟨[Value.num 1], rfl, rfl⟩
    rcases List.mem_cons.1 hc2 with rfl | hc3
    · exact ⟨[Value.num 0], rfl, rfl⟩
    · cases hc3

/-- C8 counterexample: a configuration whose first sheet passes validation
but holds a non-coercible cell makes `process_stock_data` raise inside the
per-sheet loop; the loop has no handler, so the run ends in that error and
the second, well-formed sheet is never processed. -/
theorem C8_loop_abort_cex :
    runSheets (fun _ _ _ => []) (fun n => List.range n) ⟨"P", "D", []⟩
      [("A", [("P", [Value.num 2, Value.txt "b"]), ("D", [Value.num 0])]),
       ("B", [("P", [Value.num 2]), ("D", [Value.num 0])])] []
      = .error .nameError := by
  rfl

/-- C8 amended: an exception raised while processing one sheet propagates
out of the per-sheet loop and aborts the run: the loop returns that error
and none of the remaining sheets is processed. -/
theorem C8_exception_aborts_loop
    (mlp : List (List Value) → List ℚ → List (List Value) → List ℚ)
    (perm : ℕ → List ℕ) (cols : ColumnMapping) (name : String)
    (df : DataFrame) (rest : List (String × DataFrame))
    (results : List SheetResult) (e : PyErr)
    (h : process_stock_data mlp perm cols df name results = .error e) :
    runSheets mlp perm cols ((name, df) :: rest) results = .error e := by
  simp [runSheets, h]

/-- C8 witness: the amended statement applied to a concrete failing first
sheet followed by a second sheet. -/
theorem C8_exception_aborts_loop_witness :
    runSheets (fun _ _ _ => []) (fun n => List.range n) ⟨"Pz", "Dz", []⟩
      [("A", [("Pz", [Value.txt "y"]), ("Dz", [Value.num 0])]),
       ("B", [("Pz", [Value.num 3]), ("Dz", [Value.num 0])])] []
      = .error .nameError :=
  C8_exception_aborts_loop (fun _ _ _ => []) (fun n => List.range n)
    ⟨"Pz", "Dz", []⟩ "A" [("Pz", [Value.txt "y"]), ("Dz", [Value.num 0])]
    [("B", [("Pz", [Value.num 3]), ("Dz", [Value.num 0])])] [] .nameError rfl

theorem range'_drop (k : ℕ) : ∀ (s n : ℕ),
    (List.range' s n).drop k = List.range' (s + k) (n - k) := by
  induction k with
  | zero => intro s n; simp
  | succ k ih =>
    intro s n
    cases n with
    | zero => simp
    | succ n =>
      rw [List.range'_succ, List.drop_succ_cons, ih]
      congr 1
      all_goals omega

theorem drop_range_eq (k m : ℕ) :
    (List.range m).drop k = List.range' k (m - k) := by
  rw [List.range_eq_range', range'_drop]
  simp

/-- C6: both split policies produce training and evaluation sets with zero
overlapping row positions, and the training and evaluation sizes sum to at
most the number of source rows. The randomized policy is quantified over
every possible shuffled order of the row positions. -/
theorem C6_split_disjoint_bounded (n : ℕ) (perm : List ℕ)
    (hperm : perm.Perm (List.range n)) :
    ((∀ i ∈ trainRowIdx n, i ∉ testRowIdx n) ∧
      (trainRowIdx n).length + (testRowIdx n).length ≤ n) ∧
    ((∀ i ∈ splitTrainRows perm n, i ∉ splitTestRows perm n) ∧
      (splitTrainRows perm n).length + (splitTestRows perm n).length ≤ n) := by
  constructor
  · constructor
    · intro i hi hti
      have h1 : i < 2886 := by
        rw [trainRowIdx, ilocRows, List.take_range, List.drop_zero,
          List.mem_range] at hi
        omega
      have h2 : 2887 ≤ i := by
        rw [testRowIdx, ilocRows, List.take_range, drop_range_eq,
          List.mem_range'_1] at hti
        omega
      omega
    · rw [trainRowIdx, testRowIdx, ilocRows, ilocRows, List.take_range,
        List.take_range, List.drop_zero, drop_range_eq, List.length_range,
        List.length_range']
      omega
  · have hlen : perm.length = n := by
      rw [hperm.length_eq, List.length_range]
    have hnd : perm.Nodup := hperm.nodup_iff.2 (List.nodup_range n)
    constructor
    · intro i hi hti
      have hap : List.Nodup (splitTestRows perm n ++ splitTrainRows perm n) := by
        rw [splitTestRows, splitTrainRows, List.take_append_drop]
        exact hnd
      exact (List.nodup_append.1 hap).2.2 hti hi
    · rw [splitTrainRows, splitTestRows, List.length_drop, List.length_take,
        hlen]
      omega

/-- C6 witness: the split properties at a five-row table with the identity
shuffle order. -/
theorem C6_split_disjoint_bounded_witness :
    ((∀ i ∈ trainRowIdx 5, i ∉ testRowIdx 5) ∧
      (trainRowIdx 5).length + (testRowIdx 5).length ≤ 5) ∧
    ((∀ i ∈ splitTrainRows (List.range 5) 5, i ∉ splitTestRows (List.range 5) 5) ∧
      (splitTrainRows (List.range 5) 5).length
        + (splitTestRows (List.range 5) 5).length ≤ 5) :=
  C6_split_disjoint_bounded 5 (List.range 5) (List.Perm.refl _)

theorem getCol_mem (df : DataFrame) (c : String) (vs : List Value)
    (h : getCol df c = some vs) : ∃ p ∈ df, p.1 = c ∧ p.2 = vs := by
  induction df with
  | nil => cases h
  | cons p rest ih =>
    by_cases hc : p.1 = c
    · simp only [getCol, hc, if_true, if_pos, Option.some.injEq] at h
      exact ⟨p, List.mem_cons_self p rest, hc, h⟩
    · simp only [getCol, hc, if_false, if_neg, not_false_eq_true] at h
      obtain ⟨q, hq, hh⟩ := ih h
      exact ⟨q, List.mem_cons_of_mem p hq, hh⟩

theorem ilocRows_eq_nil {α : Type} (a b : ℕ) (l : List α) (h : l.length ≤ a) :
    ilocRows a b l = [] := by
  rw [ilocRows]
  apply List.drop_eq_nil_of_le
  calc (l.take b).length ≤ l.length := by
        rw [List.length_take]
        omega
    _ ≤ a := h

theorem ilocFrame_col_nil (df : DataFrame) (c : String) (vs : List Value)
    (hrows : ∀ p ∈ df, p.2.length ≤ 2887)
    (h : getCol (ilocFrame 2887 3607 df) c = some vs) : vs = [] := by
  obtain ⟨p, hp, _, hsnd⟩ := getCol_mem _ _ _ h
  have hp2 := List.mem_of_mem_take hp
  obtain ⟨q, hq, rfl⟩ := List.mem_map.1 hp2
  rw [← hsnd]
  exact ilocRows_eq_nil 2887 3607 q.2 (hrows q hq)

theorem getCols_mem (cs : List String) (df : DataFrame)
    (X : List (List Value)) (h : getCols df cs = .ok X) :
    ∀ col ∈ X, ∃ c, getCol df c = some col := by
  induction cs generalizing X with
  | nil =>
    simp only [getCols, Except.ok.injEq] at h
    subst h
    intro col hcol
    cases hcol
  | cons c cs ih =>
    cases hg : getCol df c with
    | none =>
      simp only [getCols, hg] at h
      exact (Except.noConfusion h)
    | some vs =>
      cases hr : getCols df cs with
      | error e =>
        simp only [getCols, hg, hr] at h
        exact (Except.noConfusion h)
      | ok rest =>
        simp only [getCols, hg, hr, Except.ok.injEq] at h
        subst h
        intro col hcol
        rcases List.mem_cons.1 hcol with rfl | h3
        · exact ⟨c, hg⟩
        · exact ih rest hr col h3

/-- C10: the positional splitter slices fixed row positions independent of
the table length: training is rows 0 through 2885, evaluation rows 2887
through 3606, row 2886 belongs to neither; for a table with at most 2887
rows the evaluation slice is empty and `get_training_and_test_data` still
returns it without error. -/
theorem C10_positional_split_fixed (n : ℕ) (df : DataFrame)
    (X_train : List (List Value)) (Y_train : List ℚ)
    (X_test : List (List Value)) (Y_test : List ℚ)
    (hok : get_training_and_test_data df
      = .ok (X_train, Y_train, X_test, Y_test))
    (hrows : ∀ p ∈ df, p.2.length ≤ 2887) :
    trainRowIdx n = List.range (min 2886 n) ∧
    (∀ i, i ∈ testRowIdx n ↔ 2887 ≤ i ∧ i < min 3607 n) ∧
    (n ≤ 2887 → testRowIdx n = []) ∧
    (2886 ∉ trainRowIdx n ∧ 2886 ∉ testRowIdx n) ∧
    Y_test = [] ∧ ∀ col ∈ X_test, col = [] := by
  have hmem : ∀ i, i ∈ testRowIdx n ↔ 2887 ≤ i ∧ i < min 3607 n := by
    intro i
    rw [testRowIdx, ilocRows, List.take_range, drop_range_eq,
      List.mem_range'_1]
    omega
  refine ⟨?_, hmem, ?_, ⟨?_, ?_⟩, ?_⟩
  · rw [trainRowIdx, ilocRows, List.drop_zero, List.take_range]
  · intro hn
    rw [testRowIdx, ilocRows, List.take_range, drop_range_eq]
    have hz : min 3607 n - 2887 = 0 := by omega
    rw [hz]
    rfl
  · intro hmemtr
    rw [trainRowIdx, ilocRows, List.drop_zero, List.take_range,
      List.mem_range] at hmemtr
    omega
  · intro hmemte
    rw [hmem 2886] at hmemte
    omega
  · simp only [get_training_and_test_data] at hok
    cases h1 : getCols (ilocFrame 0 2886 df) dcFeatures with
    | error e =>
      simp only [h1] at hok
      exact (Except.noConfusion hok)
    | ok Xtr =>
      simp only [h1] at hok
      cases h2 : getCol (ilocFrame 0 2886 df) "Detalle" with
      | none =>
        simp only [h2] at hok
        exact (Except.noConfusion hok)
      | some d1 =>
        simp only [h2] at hok
        cases h3 : valuesAstypeFloat d1 with
        | error e =>
          simp only [h3] at hok
          exact (Except.noConfusion hok)
        | ok Ytr =>
          simp only [h3] at hok
          cases h4 : getCols (ilocFrame 2887 3607 df) dcFeatures with
          | error e =>
            simp only [h4] at hok
            exact (Except.noConfusion hok)
          | ok Xte =>
            simp only [h4] at hok
            cases h5 : getCol (ilocFrame 2887 3607 df) "Detalle" with
            | none =>
              simp only [h5] at hok
              exact (Except.noConfusion hok)
            | some d2 =>
              simp only [h5] at hok
              cases h6 : valuesAstypeFloat d2 with
              | error e =>
                simp only [h6] at hok
                exact (Except.noConfusion hok)
              | ok Yte =>
                simp only [h6] at hok
                cases h7 : ensure_float64 df with
                | error e =>
                  simp only [h7] at hok
                  exact (Except.noConfusion hok)
                | ok u =>
                  simp only [h7] at hok
                  injection hok with h8
                  simp only [Prod.mk.injEq] at h8
                  obtain ⟨hXtr, hYtr, hXte, hYte⟩ := h8
                  subst hXte
                  subst hYte
                  have hd2 : d2 = [] := ilocFrame_col_nil df "Detalle" d2 hrows h5
                  subst hd2
                  have hYe : Yte = [] := by
                    have : (Except.ok [] : Except PyErr (List ℚ))
                        = Except.ok Yte := h6
                    injection this with h9
                    exact h9.symm
                  subst hYe
                  refine ⟨rfl, ?_⟩
                  intro col hcol
                  obtain ⟨c, hgc⟩ := getCols_mem dcFeatures _ Xte h4 col hcol
                  exact ilocFrame_col_nil df c col hrows hgc

/-- C10 witness: a seven-column, one-row table is split with an empty
evaluation set and the call returns without error; the index facts are
instantiated at a table length of 100. -/
theorem C10_positional_split_fixed_witness :
    trainRowIdx 100 = List.range (min 2886 100) ∧
    (∀ i, i ∈ testRowIdx 100 ↔ 2887 ≤ i ∧ i < min 3607 100) ∧
    (100 ≤ 2887 → testRowIdx 100 = []) ∧
    (2886 ∉ trainRowIdx 100 ∧ 2886 ∉ testRowIdx 100) ∧
    ([] : List ℚ) = [] ∧
    ∀ col ∈ [([] : List Value), [], [], [], [], []], col = [] :=
  C10_positional_split_fixed 100
    [("Movilveintiuno", [Value.num 1]), ("Movilcincocinco", [Value.num 1]),
     ("Movilunocuatrocuatro", [Value.num 1]), ("Momentdiez", [Value.num 1]),
     ("Momentsetenta", [Value.num 1]), ("Momenttrescerocero", [Value.num 1]),
     ("Detalle", [Value.num 1])]
    [[Value.num 1], [Value.num 1], [Value.num 1], [Value.num 1],
     [Value.num 1], [Value.num 1]]
    [1] [[], [], [], [], [], []] []
    rfl (by decide)

end EquityAnalysis
